import Mathlib

/-!
Verification of the serial-session core of web-pico-editor (`src/index.ts`).

The scanning reader (`Pico.clearpicoport` driving the async generator
`readFromPort`) is modelled as a pure function over the list of decoded
text chunks delivered by the transport: the generator yields one decoded
chunk per transport read, and `clearpicoport` accumulates chunks until a
chunk contains the marker, keeping only the part of that chunk before the
marker's first occurrence and abandoning the rest of the stream.  Chunks
are modelled after decoding (`List Char`); the markers used by the program
(`"OK"`, `"\x04"`) are ASCII, for which one byte is one character.

The effectful operations of class `Pico` (`sendCommand`, `runCode`,
`writeFile`, `loadTempPy`, `readpicoport`, `disconnectFromPort`) are
modelled as pure functions from the relevant session state to the ordered
trace of lease/write events they perform, following the source line by
line under the cooperative (run-to-completion between awaits)
single-threaded semantics of the page: a fire-and-forget async call runs
until its first await before control returns, and awaiting
`reader.cancel()` lets the cancelled scan run its `finally` block
(releasing the read lock) before the canceller resumes.  A write that
rejects propagates out of the calling operation; the source installs no
try/finally around the writes, so the events after a rejected write are
absent from the trace.
-/

namespace Pico

/-! ### The scanning reader: `clearpicoport` / `readFromPort` -/

/-- JS `chunk.includes(m)`: `m` occurs as a contiguous substring of the
chunk.  Mirrors the marker test in `clearpicoport` and `readFromPort`. -/
def includesSub (m : List Char) : List Char → Bool
  | [] => m.isEmpty
  | a :: s => m.isPrefixOf (a :: s) || includesSub m s

/-- First component of JS `chunk.split(m)` for a non-empty separator `m`:
the text of the chunk before the first occurrence of `m` (the whole chunk
when `m` does not occur).  Mirrors
`const [beforeTarget] = chunk.split(targetChar)` in `clearpicoport`. -/
def splitHead (m : List Char) : List Char → List Char
  | [] => []
  | a :: s => if m.isPrefixOf (a :: s) then [] else a :: splitHead m s

/-- One scan of `Pico.clearpicoport(targetChar)` over the chunks the
transport delivers.  `none` models passing `false`; faithful to JS
truthiness, an empty marker string is falsy and also disables the marker
test (`targetChar && chunk.includes(targetChar)`).  Returns the
accumulated text and the chunks the scan never pulled; the text after the
marker inside the chunk where it was found is discarded (the consumer
`break`s out of the `for await` loop and releases the reader). -/
def clearpicoport (target : Option (List Char)) :
    List (List Char) → List Char × List (List Char)
  | [] => ([], [])
  | c :: rest =>
    match target with
    | some m =>
      if !m.isEmpty && includesSub m c then (splitHead m c, rest)
      else
        let r := clearpicoport (some m) rest
        (c ++ r.1, r.2)
    | none =>
      let r := clearpicoport none rest
      (c ++ r.1, r.2)

/-- The marker `m` occurs in `s` at position `p`. -/
def occursAt (m s : List Char) (p : Nat) : Prop := m <+: s.drop p

instance (m s : List Char) (p : Nat) : Decidable (occursAt m s p) := by
  unfold occursAt; infer_instance

/-- Positions of the chunk boundaries inside the concatenated stream (the
accumulated lengths of the chunks). -/
def boundaries : List (List Char) → List Nat
  | [] => []
  | c :: rest => c.length :: (boundaries rest).map (· + c.length)

/-! ### Lemmas about the scanning reader -/

theorem occursAt_lt_length {m s : List Char} {p : Nat} (hm : m ≠ [])
    (h : occursAt m s p) : p < s.length := by
  have hlen : m.length ≤ (s.drop p).length := h.length_le
  rw [List.length_drop] at hlen
  have : 0 < m.length := List.length_pos.mpr hm
  omega

theorem occursAt_nil {m : List Char} {p : Nat} (h : occursAt m [] p) :
    m = [] := by
  obtain ⟨t, ht⟩ := h
  rw [List.drop_nil] at ht
  cases m with
  | nil => rfl
  | cons x xs => simp at ht

theorem includesSub_iff (m s : List Char) :
    includesSub m s = true ↔ ∃ p, occursAt m s p := by
  induction s with
  | nil =>
    constructor
    · intro h
      have hm : m = [] := by
        simpa [includesSub, List.isEmpty_iff] using h
      subst hm
      exact ⟨0, List.nil_prefix⟩
    · rintro ⟨p, hp⟩
      have hm : m = [] := occursAt_nil hp
      subst hm
      rfl
  | cons a s ih =>
    simp only [includesSub, Bool.or_eq_true, ih]
    constructor
    · rintro (h | ⟨p, hp⟩)
      · exact ⟨0, by simpa [occursAt] using List.isPrefixOf_iff_prefix.mp h⟩
      · exact ⟨p + 1, by simpa [occursAt] using hp⟩
    · rintro ⟨p, hp⟩
      cases p with
      | zero =>
        left
        exact List.isPrefixOf_iff_prefix.mpr (by simpa [occursAt] using hp)
      | succ p =>
        right
        exact ⟨p, by simpa [occursAt] using hp⟩

theorem not_occursAt_of_includesSub_eq_false {m s : List Char}
    (h : includesSub m s = false) (p : Nat) : ¬ occursAt m s p := by
  intro hp
  have := (includesSub_iff m s).mpr ⟨p, hp⟩
  rw [h] at this
  exact Bool.false_ne_true this

/-- When the first occurrence of a non-empty marker in `s` is at `p`, the
text before that occurrence is `s.take p`. -/
theorem splitHead_eq_take {m : List Char} (hm : m ≠ []) :
    ∀ (s : List Char) (p : Nat), occursAt m s p →
      (∀ q < p, ¬ occursAt m s q) → splitHead m s = s.take p := by
  intro s
  induction s with
  | nil =>
    intro p hp _
    exact absurd (occursAt_nil hp) hm
  | cons a s ih =>
    intro p hp hmin
    cases hpre : m.isPrefixOf (a :: s) with
    | true =>
      have h0 : occursAt m (a :: s) 0 := by
        simpa [occursAt] using List.isPrefixOf_iff_prefix.mp hpre
      have hp0 : p = 0 := by
        by_contra hne
        exact hmin 0 (Nat.pos_of_ne_zero fun h => hne h) h0
      subst hp0
      simp [splitHead, hpre]
    | false =>
      have hnot0 : ¬ occursAt m (a :: s) 0 := by
        intro h
        have := List.isPrefixOf_iff_prefix.mpr (by simpa [occursAt] using h)
        rw [hpre] at this
        exact Bool.false_ne_true this
      cases p with
      | zero => exact absurd hp hnot0
      | succ p =>
        have hp' : occursAt m s p := by simpa [occursAt] using hp
        have hmin' : ∀ q < p, ¬ occursAt m s q := by
          intro q hq hocc
          exact hmin (q + 1) (by omega) (by simpa [occursAt] using hocc)
        simp [splitHead, hpre, ih p hp' hmin']

theorem occursAt_append_left {m c : List Char} (d : List Char) {p : Nat}
    (h : occursAt m c p) : occursAt m (c ++ d) p := by
  unfold occursAt at h ⊢
  obtain ⟨t, ht⟩ := h
  by_cases hpc : p ≤ c.length
  · rw [List.drop_append_eq_append_drop, ← ht]
    exact ⟨t ++ (d.drop (p - c.length)), by simp⟩
  · have hnil : c.drop p = [] := by
      apply List.drop_eq_nil_of_le; omega
    rw [hnil] at ht
    have hm0 : m = [] := by
      cases m with
      | nil => rfl
      | cons x xs => simp at ht
    subst hm0
    exact List.nil_prefix

theorem occursAt_append_right {m : List Char} (c : List Char)
    {d : List Char} {p : Nat} (h : occursAt m d p) :
    occursAt m (c ++ d) (c.length + p) := by
  unfold occursAt at h ⊢
  rw [List.drop_append_eq_append_drop]
  have h1 : c.drop (c.length + p) = [] := List.drop_eq_nil_of_le (by omega)
  have h2 : c.length + p - c.length = p := by omega
  rw [h1, h2]
  simpa using h

/-- Where an occurrence in an appended stream lies: within `c`, within
`d`, or straddling the boundary between them. -/
theorem occursAt_append_cases {m c d : List Char} {p : Nat}
    (h : occursAt m (c ++ d) p) :
    (p + m.length ≤ c.length ∧ occursAt m c p) ∨
    (c.length ≤ p ∧ occursAt m d (p - c.length)) ∨
    (p < c.length ∧ c.length < p + m.length) := by
  by_cases hcl : c.length ≤ p
  · refine Or.inr (Or.inl ⟨hcl, ?_⟩)
    unfold occursAt at h ⊢
    rwa [List.drop_append_eq_append_drop,
      List.drop_eq_nil_of_le hcl, List.nil_append] at h
  · push_neg at hcl
    by_cases hin : p + m.length ≤ c.length
    · refine Or.inl ⟨hin, ?_⟩
      unfold occursAt at h ⊢
      rw [List.drop_append_eq_append_drop] at h
      have hlen : m.length ≤ (c.drop p).length := by
        rw [List.length_drop]; omega
      exact List.prefix_of_prefix_length_le h
        (List.prefix_append _ _) (by simpa using hlen)
    · exact Or.inr (Or.inr ⟨hcl, by omega⟩)

/-- Core correctness of the marker scan: if the marker occurs first at
position `p` of the concatenated stream and no occurrence of the marker
straddles a chunk boundary, the scan returns exactly the text before
`p`. -/
theorem clearpicoport_eq_take {m : List Char} (hm : m ≠ []) :
    ∀ (chunks : List (List Char)) (p : Nat),
      occursAt m chunks.flatten p →
      (∀ q < p, ¬ occursAt m chunks.flatten q) →
      (∀ q, occursAt m chunks.flatten q →
        ∀ b ∈ boundaries chunks, ¬ (q < b ∧ b < q + m.length)) →
      (clearpicoport (some m) chunks).1 = chunks.flatten.take p := by
  intro chunks
  induction chunks with
  | nil =>
    intro p hp _ _
    rw [List.flatten_nil] at hp
    exact absurd (occursAt_nil hp) hm
  | cons c rest ih =>
    intro p hp hmin hns
    have hmlen : 0 < m.length := List.length_pos.mpr hm
    have hflat : (c :: rest).flatten = c ++ rest.flatten := by simp
    rw [hflat] at hp hmin hns
    have hbmem : (c.length : Nat) ∈ boundaries (c :: rest) := by
      simp [boundaries]
    have hne : m.isEmpty = false := by
      cases m with
      | nil => exact absurd rfl hm
      | cons x xs => rfl
    by_cases hinc : includesSub m c = true
    · -- the marker occurs inside the first chunk
      obtain ⟨q1, hq1⟩ := (includesSub_iff m c).mp hinc
      have hex : ∃ q, occursAt m c q := ⟨q1, hq1⟩
      have hq0 : occursAt m c (Nat.find hex) := Nat.find_spec hex
      have hq0min : ∀ q < Nat.find hex, ¬ occursAt m c q := fun q hq =>
        Nat.find_min hex hq
      have hq0len : Nat.find hex + m.length ≤ c.length := by
        have h1 := hq0.length_le
        rw [List.length_drop] at h1
        have h2 := occursAt_lt_length hm hq0
        omega
      have hq0s : occursAt m (c ++ rest.flatten) (Nat.find hex) :=
        occursAt_append_left _ hq0
      have hple : p ≤ Nat.find hex := by
        by_contra hlt
        exact hmin (Nat.find hex) (by omega) hq0s
      have hpq : p = Nat.find hex := by
        rcases occursAt_append_cases hp with h | h | h
        · have : Nat.find hex ≤ p := Nat.find_min' hex h.2
          omega
        · omega
        · exact absurd ⟨h.1, h.2⟩ (hns p hp c.length hbmem)
      have hres : (clearpicoport (some m) (c :: rest)).1 = splitHead m c := by
        simp [clearpicoport, hinc, hne]
      rw [hres, splitHead_eq_take hm c (Nat.find hex) hq0 hq0min, ← hpq,
        hflat, List.take_append_eq_append_take,
        Nat.sub_eq_zero_of_le (show p ≤ c.length by omega)]
      simp
    · -- the marker does not occur inside the first chunk
      have hninc : includesSub m c = false := by
        simpa using hinc
      have hnotc := not_occursAt_of_includesSub_eq_false hninc
      have hclp : c.length ≤ p := by
        by_contra hlt
        push_neg at hlt
        rcases occursAt_append_cases hp with h | h | h
        · exact hnotc p h.2
        · omega
        · exact absurd ⟨h.1, h.2⟩ (hns p hp c.length hbmem)
      have hpr : occursAt m rest.flatten (p - c.length) := by
        rcases occursAt_append_cases hp with h | h | h
        · exact absurd h.2 (hnotc p)
        · exact h.2
        · omega
      have hmin' : ∀ q < p - c.length, ¬ occursAt m rest.flatten q := by
        intro q hq hocc
        have := occursAt_append_right c hocc
        exact hmin (c.length + q) (by omega) this
      have hns' : ∀ q, occursAt m rest.flatten q →
          ∀ b ∈ boundaries rest, ¬ (q < b ∧ b < q + m.length) := by
        intro q hocc b hb hcontra
        have hmem : b + c.length ∈ boundaries (c :: rest) := by
          simp only [boundaries, List.mem_cons, List.mem_map]
          exact Or.inr ⟨b, hb, rfl⟩
        have := hns (c.length + q) (occursAt_append_right c hocc)
          (b + c.length) hmem
        exact this ⟨by omega, by omega⟩
      have hres : (clearpicoport (some m) (c :: rest)).1 =
          c ++ (clearpicoport (some m) rest).1 := by
        simp [clearpicoport, hninc]
      rw [hres, ih (p - c.length) hpr hmin' hns', hflat,
        List.take_append_eq_append_take,
        List.take_of_length_le (show c.length ≤ p by omega)]

/-! ### Event traces of the Pico operations -/

/-- Observable lease and write events performed by the operations of class
`Pico` on the single serial connection.  `acquireReader` models
`readable.getReader()`, `releaseReader` models `reader.releaseLock()`
(run in the `finally` of a scan), `cancelReader` models
`picoreader.cancel()`, `acquireWriter`/`releaseWriter` model
`writable.getWriter()`/`writer.releaseLock()`, and `write s` models one
awaited `writer.write` of the encoded text `s`. -/
inductive Ev where
  | cancelReader
  | acquireReader
  | releaseReader
  | acquireWriter
  | write (s : List Char)
  | releaseWriter
deriving DecidableEq, Repr

/-- Session state an operation starts from: whether the port is open
(`picoport` set and its readable/writable ends present) and whether a
reader (`picoserial.picoreader`) is currently active. -/
structure St where
  connOpen : Bool
  readerActive : Bool
deriving DecidableEq, Repr

/-- A run of consecutive `await this.write(...)` calls, numbered from
`k`.  `failAt = some i` makes the `i`-th write reject; the failing call
writes nothing and the remaining calls are skipped (the rejection
propagates out of the operation, which installs no try/finally).  Returns
the performed write events and whether a write threw. -/
def writeSeq (failAt : Option Nat) : Nat → List (List Char) → List Ev × Bool
  | _, [] => ([], false)
  | k, s :: rest =>
    if failAt = some k then ([], true)
    else
      let r := writeSeq failAt (k + 1) rest
      (Ev.write s :: r.1, r.2)

/-- JS `content.split(sep)` for a one-character separator: every
separator occurrence splits, and the result always has one more part than
there are separators (so a trailing separator yields a final empty
part). -/
def jsSplit (sep : Char) : List Char → List (List Char)
  | [] => [[]]
  | a :: s =>
    match jsSplit sep s with
    | [] => [[]]
    | r :: rs => if a = sep then [] :: r :: rs else (a :: r) :: rs

/-- JS `line.replace(/[\r\n]+$/, '')`: strip the trailing run of carriage
returns and line feeds. -/
def stripCRLF (s : List Char) : List Char :=
  (s.reverse.dropWhile (fun c => c == '\r' || c == '\n')).reverse

/-- Lower-case hexadecimal digit, for the `\u00..` escapes of
`JSON.stringify`. -/
def hexDigit (n : Nat) : Char :=
  if n < 10 then Char.ofNat ('0'.toNat + n) else Char.ofNat ('a'.toNat + n - 10)

/-- Escape of one character inside a `JSON.stringify`'d string. -/
def jsonEscapeChar (c : Char) : List Char :=
  if c = '"' then ['\\', '"']
  else if c = '\\' then ['\\', '\\']
  else if c = '\n' then ['\\', 'n']
  else if c = '\r' then ['\\', 'r']
  else if c = '\t' then ['\\', 't']
  else if c = '\x08' then ['\\', 'b']
  else if c = '\x0c' then ['\\', 'f']
  else if c.toNat < 0x20 then
    ['\\', 'u', '0', '0', hexDigit (c.toNat / 16), hexDigit (c.toNat % 16)]
  else [c]

/-- JS `JSON.stringify(s)` for a string `s`: quote and escape. -/
def jsonQuote (s : List Char) : List Char :=
  '"' :: (s.map jsonEscapeChar).flatten ++ ['"']

/-- Per-line `f.write(...)` instructions emitted by the loop of
`Pico.writeFile`: every line but the last is stripped of trailing line
terminators, given back a `\n`, JSON-quoted and sent followed by a
carriage return; the last line is sent without a carriage return, and is
skipped entirely when empty after stripping. -/
def lineWriteInstrs : List (List Char) → List (List Char)
  | [] => []
  | [last] =>
    let s := stripCRLF last
    if s.isEmpty then []
    else [("  f.write(".data) ++ jsonQuote s ++ (")".data)]
  | line :: rest =>
    (("  f.write(".data) ++ jsonQuote (stripCRLF line ++ ['\n']) ++
      (")\r".data)) :: lineWriteInstrs rest

/-- The full ordered list of texts `Pico.writeFile` sends: CTRL+A, the
file-open instruction (with the filename interpolated verbatim into the
template literal), the per-line instructions, and CTRL+D. -/
def writeFileWrites (filename content : List Char) : List (List Char) :=
  ("\x01".data) ::
  (("with open(\"".data) ++ filename ++ ("\", \"w\") as f:\r".data)) ::
  (lineWriteInstrs (jsSplit '\n' content) ++ [("\x04".data)])

/-- Trace of `Pico.readpicoport()`: start the passthrough scan, which
acquires a reader when the port is open and readable, and otherwise does
nothing. -/
def readpicoport (connOpen : Bool) : List Ev :=
  if connOpen then [Ev.acquireReader] else []

/-- Trace of `PicoSerial.disconnectFromPort()` restricted to lease
events: cancel the active reader if any (its scan's `finally` releases
the lock), then close the port. -/
def disconnectFromPort (readerActive : Bool) : List Ev :=
  if readerActive then [Ev.cancelReader, Ev.releaseReader] else []

/-- Model of `Pico.write`: with no prepared writer the call throws
`Error('Writer is not available')`; otherwise it performs the write. -/
def write (writerAvailable : Bool) (s : List Char) :
    Except (List Char) (List Ev) :=
  if writerAvailable then Except.ok [Ev.write s]
  else Except.error ("Writer is not available".data)

/-- Trace of `Pico.sendCommand(command)`: when `prepareWritablePort()`
returns a writer (the port is open and writable) acquire it, write the
command, and release the lock; the release is skipped when the write
throws (no try/finally).  When no writer is available the body is
skipped silently. -/
def sendCommand (st : St) (failAt : Option Nat) (command : List Char) :
    List Ev × Bool :=
  if st.connOpen then
    let r := writeSeq failAt 0 [command]
    if r.2 then (Ev.acquireWriter :: r.1, true)
    else (Ev.acquireWriter :: r.1 ++ [Ev.releaseWriter], false)
  else ([], false)

/-- Trace of `Pico.runCode(content)`: acquire the writer once, send
CTRL+A, the content, CTRL+D and CTRL+B, then release the lock.  No
reader is cancelled, and the release is skipped when a write throws. -/
def runCode (st : St) (failAt : Option Nat) (content : List Char) :
    List Ev × Bool :=
  if st.connOpen then
    let r := writeSeq failAt 0
      [("\x01".data), content, ("\x04".data), ("\x02".data)]
    if r.2 then (Ev.acquireWriter :: r.1, true)
    else (Ev.acquireWriter :: r.1 ++ [Ev.releaseWriter], false)
  else ([], false)

/-- Trace of `Pico.writeFile(filename, content)` under the cooperative
semantics: cancel the passthrough reader if active; start the
fire-and-forget `clearpicoport(false)` scan, which acquires a reader when
the port is open; then, when a writer is available, send the control and
line sequence, release the writer and send CTRL+B via `sendCommand`;
finally cancel the scan's reader and resume passthrough via
`readpicoport()`.  A throwing write aborts the operation where it
happened.  When no writer is available the cancel/resume steps still
run. -/
def writeFile (st : St) (failAt : Option Nat) (filename content : List Char) :
    List Ev × Bool :=
  let cancel1 :=
    if st.readerActive then [Ev.cancelReader, Ev.releaseReader] else []
  if st.connOpen then
    let r := writeSeq failAt 0 (writeFileWrites filename content)
    if r.2 then (cancel1 ++ Ev.acquireReader :: Ev.acquireWriter :: r.1, true)
    else
      ((cancel1 ++ Ev.acquireReader :: Ev.acquireWriter :: r.1 ++
        [Ev.releaseWriter, Ev.acquireWriter, Ev.write ("\x02".data),
         Ev.releaseWriter, Ev.cancelReader, Ev.releaseReader]) ++
        [Ev.acquireReader], false)
  else (cancel1, false)

/-- The fixed texts `loadTempPy` sends: CTRL+A, the three program lines
that print `temp.py`, and CTRL+D. -/
def loadTempPyWrites : List (List Char) :=
  [("\x01".data), ("import os\r".data), ("with open(\"temp.py\") as f:\r".data),
   ("  print(f.read())\r".data), ("\x04".data)]

/-- Trace of `loadTempPy(editor)`: cancel the passthrough reader if
active; when a writer is available send the fixed sequence holding the
writer, release it, run the two marker scans `clearpicoport('OK')` and
`clearpicoport('\x04')` (each acquires a reader and releases it in its
`finally`), send CTRL+B via `sendCommand`, and finally resume passthrough
via `readpicoport()`.  A throwing write aborts the operation. -/
def loadTempPy (st : St) (failAt : Option Nat) : List Ev × Bool :=
  let cancel1 :=
    if st.readerActive then [Ev.cancelReader, Ev.releaseReader] else []
  if st.connOpen then
    let r := writeSeq failAt 0 loadTempPyWrites
    if r.2 then (cancel1 ++ Ev.acquireWriter :: r.1, true)
    else
      ((cancel1 ++ Ev.acquireWriter :: r.1 ++
        [Ev.releaseWriter,
         Ev.acquireReader, Ev.releaseReader,
         Ev.acquireReader, Ev.releaseReader,
         Ev.acquireWriter, Ev.write ("\x02".data), Ev.releaseWriter]) ++
        [Ev.acquireReader], false)
  else (cancel1, false)

/-! ### Trace analysis -/

/-- Number of active read leases after one event.  Modelled from the
spec: the Transport Handle (external to the repository) grants at most
one outstanding acquisition per end at a time, so `getReader()` on a
locked stream throws and grants nothing. -/
def rstep (n : Nat) : Ev → Nat
  | Ev.cancelReader => n
  | Ev.acquireReader => if n = 0 then 1 else n
  | Ev.releaseReader => n - 1
  | Ev.acquireWriter => n
  | Ev.write _ => n
  | Ev.releaseWriter => n

/-- Number of active read leases after a trace, starting from `n`. -/
def readerCount (n : Nat) : List Ev → Nat
  | [] => n
  | e :: t => readerCount (rstep n e) t

/-- Checks that a trace never attempts `getReader()` while a read lease
is still held (so no acquisition ever fails and no second reader is ever
requested while a previous scan holds one). -/
def noAcq (n : Nat) : List Ev → Bool
  | [] => true
  | Ev.acquireReader :: t => (n == 0) && noAcq 1 t
  | Ev.releaseReader :: t => noAcq (n - 1) t
  | Ev.cancelReader :: t => noAcq n t
  | Ev.acquireWriter :: t => noAcq n t
  | Ev.write _ :: t => noAcq n t
  | Ev.releaseWriter :: t => noAcq n t

/-- Net number of write-end locks held after a trace, starting from
`n`. -/
def writerCount (n : Nat) : List Ev → Nat
  | [] => n
  | Ev.acquireWriter :: t => writerCount (n + 1) t
  | Ev.releaseWriter :: t => writerCount (n - 1) t
  | Ev.cancelReader :: t => writerCount n t
  | Ev.acquireReader :: t => writerCount n t
  | Ev.releaseReader :: t => writerCount n t
  | Ev.write _ :: t => writerCount n t

/-- Number of write events performed before the next `releaseWriter`. -/
def countWritesUntilRelease : List Ev → Nat
  | [] => 0
  | Ev.releaseWriter :: _ => 0
  | Ev.write _ :: t => countWritesUntilRelease t + 1
  | Ev.cancelReader :: t => countWritesUntilRelease t
  | Ev.acquireReader :: t => countWritesUntilRelease t
  | Ev.releaseReader :: t => countWritesUntilRelease t
  | Ev.acquireWriter :: t => countWritesUntilRelease t

/-- Number of write events performed while the first acquired writer is
held. -/
def writesInFirstHold : List Ev → Nat
  | [] => 0
  | Ev.acquireWriter :: t => countWritesUntilRelease t
  | Ev.cancelReader :: t => writesInFirstHold t
  | Ev.acquireReader :: t => writesInFirstHold t
  | Ev.releaseReader :: t => writesInFirstHold t
  | Ev.write _ :: t => writesInFirstHold t
  | Ev.releaseWriter :: t => writesInFirstHold t

/-- True when no write event precedes the first reader cancellation in
the trace (vacuously true when the trace performs no write). -/
def cancelBeforeWrite : List Ev → Bool
  | [] => true
  | Ev.write _ :: _ => false
  | Ev.cancelReader :: _ => true
  | Ev.acquireReader :: t => cancelBeforeWrite t
  | Ev.releaseReader :: t => cancelBeforeWrite t
  | Ev.acquireWriter :: t => cancelBeforeWrite t
  | Ev.releaseWriter :: t => cancelBeforeWrite t

/-- Read leases held by the state an operation starts from. -/
def initCount (st : St) : Nat := if st.readerActive then 1 else 0

/-- The trace of one caller-facing Pico operation, paired with nothing:
either a `writeFile`, `runCode`, `sendCommand` or `loadTempPy`
transaction at some state and failure point, a passthrough start
(`readpicoport`, as run on connect), or a disconnect. -/
def isPicoOpTrace (t : List Ev) : Prop :=
  (∃ st failAt filename content, t = (writeFile st failAt filename content).1) ∨
  (∃ st failAt content, t = (runCode st failAt content).1) ∨
  (∃ st failAt command, t = (sendCommand st failAt command).1) ∨
  (∃ st failAt, t = (loadTempPy st failAt).1) ∨
  (∃ b, t = readpicoport b) ∨
  (∃ b, t = disconnectFromPort b)

/-- An arbitrary interleaving of the given event lists: at each step one
of the lists contributes its next event. -/
inductive Interleaving : List (List Ev) → List Ev → Prop where
  | nil : Interleaving [] []
  | dropEmpty (pre post : List (List Ev)) (tr : List Ev) :
      Interleaving (pre ++ post) tr → Interleaving (pre ++ [] :: post) tr
  | pick (pre : List (List Ev)) (e : Ev) (rest : List Ev)
      (post : List (List Ev)) (tr : List Ev) :
      Interleaving (pre ++ rest :: post) tr →
      Interleaving (pre ++ (e :: rest) :: post) (e :: tr)

/-! ### Trace lemmas -/

theorem Interleaving.single : ∀ t : List Ev, Interleaving [t] t := by
  intro t
  induction t with
  | nil => exact Interleaving.dropEmpty [] [] [] Interleaving.nil
  | cons e t ih => exact Interleaving.pick [] e t [] t ih

theorem writeSeq_writes (failAt : Option Nat) :
    ∀ (k : Nat) (ws : List (List Char)) (e : Ev),
      e ∈ (writeSeq failAt k ws).1 → ∃ s, e = Ev.write s := by
  intro k ws
  induction ws generalizing k with
  | nil => intro e he; simp [writeSeq] at he
  | cons w rest ih =>
    intro e he
    by_cases hf : failAt = some k
    · simp [writeSeq, hf] at he
    · simp only [writeSeq, hf, if_false] at he
      rcases List.mem_cons.mp he with h | h
      · exact ⟨w, h⟩
      · exact ih (k + 1) e h

theorem noAcq_append_writes {l : List Ev}
    (h : ∀ e ∈ l, ∃ s, e = Ev.write s) (n : Nat) (t : List Ev) :
    noAcq n (l ++ t) = noAcq n t := by
  induction l with
  | nil => rfl
  | cons e l ih =>
    obtain ⟨s, hs⟩ := h e (List.mem_cons_self e l)
    subst hs
    have := ih (fun e he => h e (List.mem_cons_of_mem _ he))
    simpa [noAcq] using this

theorem writerCount_append_writes {l : List Ev}
    (h : ∀ e ∈ l, ∃ s, e = Ev.write s) (n : Nat) (t : List Ev) :
    writerCount n (l ++ t) = writerCount n t := by
  induction l with
  | nil => rfl
  | cons e l ih =>
    obtain ⟨s, hs⟩ := h e (List.mem_cons_self e l)
    subst hs
    have := ih (fun e he => h e (List.mem_cons_of_mem _ he))
    simpa [writerCount] using this

theorem readerCount_le_one :
    ∀ (l : List Ev) (n : Nat), n ≤ 1 → readerCount n l ≤ 1 := by
  intro l
  induction l with
  | nil => intro n h; exact h
  | cons e t ih =>
    intro n h
    apply ih
    cases e with
    | acquireReader =>
      by_cases h0 : n = 0
      · simp [rstep, h0]
      · simpa [rstep, h0] using h
    | releaseReader =>
      simp only [rstep]
      omega
    | cancelReader => exact h
    | acquireWriter => exact h
    | write s => exact h
    | releaseWriter => exact h

theorem writeSeq_none :
    ∀ (k : Nat) (ws : List (List Char)),
      writeSeq none k ws = (ws.map Ev.write, false) := by
  intro k ws
  induction ws generalizing k with
  | nil => rfl
  | cons w rest ih => simp [writeSeq, ih (k + 1)]

theorem countWrites_map (ws : List (List Char)) (t : List Ev) :
    countWritesUntilRelease (ws.map Ev.write ++ Ev.releaseWriter :: t) =
      ws.length := by
  induction ws with
  | nil => rfl
  | cons w rest ih => simp [countWritesUntilRelease, ih]

theorem noAcq_writes {l : List Ev}
    (h : ∀ e ∈ l, ∃ s, e = Ev.write s) (n : Nat) : noAcq n l = true := by
  have := noAcq_append_writes h n []
  simpa using this

theorem noAcq_writeFile (st : St) (failAt : Option Nat) (fn ct : List Char) :
    noAcq (initCount st) (writeFile st failAt fn ct).1 = true := by
  obtain ⟨co, ra⟩ := st
  have hw := writeSeq_writes failAt 0 (writeFileWrites fn ct)
  cases co
  · cases ra <;> simp [writeFile, initCount, noAcq]
  · cases hT : (writeSeq failAt 0 (writeFileWrites fn ct)).2 <;> cases ra <;>
      simp [writeFile, initCount, noAcq, hT, List.append_assoc,
        noAcq_append_writes hw, noAcq_writes hw]

theorem noAcq_runCode (st : St) (failAt : Option Nat) (ct : List Char) :
    noAcq (initCount st) (runCode st failAt ct).1 = true := by
  obtain ⟨co, ra⟩ := st
  have hw := writeSeq_writes failAt 0
    [("\x01".data), ct, ("\x04".data), ("\x02".data)]
  cases co
  · cases ra <;> simp [runCode, initCount, noAcq]
  · cases hT : (writeSeq failAt 0
        [("\x01".data), ct, ("\x04".data), ("\x02".data)]).2 <;> cases ra <;>
      simp [runCode, initCount, noAcq, hT, List.append_assoc,
        noAcq_append_writes hw, noAcq_writes hw]

theorem noAcq_sendCommand (st : St) (failAt : Option Nat) (c : List Char) :
    noAcq (initCount st) (sendCommand st failAt c).1 = true := by
  obtain ⟨co, ra⟩ := st
  have hw := writeSeq_writes failAt 0 [c]
  cases co
  · cases ra <;> simp [sendCommand, initCount, noAcq]
  · cases hT : (writeSeq failAt 0 [c]).2 <;> cases ra <;>
      simp [sendCommand, initCount, noAcq, hT, List.append_assoc,
        noAcq_append_writes hw, noAcq_writes hw]

theorem noAcq_loadTempPy (st : St) (failAt : Option Nat) :
    noAcq (initCount st) (loadTempPy st failAt).1 = true := by
  obtain ⟨co, ra⟩ := st
  have hw := writeSeq_writes failAt 0 loadTempPyWrites
  cases co
  · cases ra <;> simp [loadTempPy, initCount, noAcq]
  · cases hT : (writeSeq failAt 0 loadTempPyWrites).2 <;> cases ra <;>
      simp [loadTempPy, initCount, noAcq, hT, List.append_assoc,
        noAcq_append_writes hw, noAcq_writes hw]

/-! ### Claim theorems -/

/-- C1 (counterexample): the scan result is not chunking-independent.
With marker `"OK"` and the bytes `"AOKBOK"` delivered as the chunks
`"AO"`, `"KBOK"`, the first occurrence of the marker in the concatenated
stream is at position 1, yet the scan misses the occurrence straddling
the chunk boundary and returns `"AOKB"` instead of the text before
position 1. -/
theorem C1_counterexample :
    occursAt ("OK".data) (["AO".data, "KBOK".data] : List (List Char)).flatten 1 ∧
    ¬ occursAt ("OK".data) (["AO".data, "KBOK".data] : List (List Char)).flatten 0 ∧
    (clearpicoport (some ("OK".data)) ["AO".data, "KBOK".data]).1 ≠
      (["AO".data, "KBOK".data] : List (List Char)).flatten.take 1 := by
  exact ⟨by decide, by decide, by decide⟩

/-- C1 (amended): for every non-empty marker and every chunking in which
no occurrence of the marker straddles a chunk boundary, the scan
`clearpicoport(M)` returns exactly the text before the first occurrence
of the marker in the concatenated stream. -/
theorem C1_scan_chunk_independent (m : List Char) (chunks : List (List Char))
    (p : Nat) (hm : m ≠ [])
    (hocc : occursAt m chunks.flatten p)
    (hmin : ∀ q < p, ¬ occursAt m chunks.flatten q)
    (hns : ∀ q < chunks.flatten.length, occursAt m chunks.flatten q →
      ∀ b ∈ boundaries chunks, ¬ (q < b ∧ b < q + m.length)) :
    (clearpicoport (some m) chunks).1 = chunks.flatten.take p := by
  apply clearpicoport_eq_take hm chunks p hocc hmin
  intro q hq b hb
  exact hns q (occursAt_lt_length hm hq) hq b hb

/-- Witness for C1 at a concrete input: marker `"OK"`, chunks `"A"` and
`"BOKC"`, first occurrence at position 2. -/
theorem C1_witness :
    (clearpicoport (some ("OK".data)) ["A".data, "BOKC".data]).1 =
      (["A".data, "BOKC".data] : List (List Char)).flatten.take 2 :=
  C1_scan_chunk_independent ("OK".data) ["A".data, "BOKC".data] 2
    (by decide) (by decide) (by decide) (by decide)

/-- C5 (counterexample): when the device delivers the whole byte
sequence `"OK1+1\r\n2\r\n\x04"` as a single chunk, the first scan for
`"OK"` does return `""`, but it discards the rest of the chunk, so the
subsequent scan for `"\x04"` returns `""` rather than
`"1+1\r\n2\r\n"`. -/
theorem C5_counterexample :
    (clearpicoport (some ("OK".data)) ["OK1+1\r\n2\r\n\x04".data]).1 = [] ∧
    (clearpicoport (some ("\x04".data))
      (clearpicoport (some ("OK".data)) ["OK1+1\r\n2\r\n\x04".data]).2).1 ≠
      "1+1\r\n2\r\n".data := by
  exact ⟨by decide, by decide⟩

/-- C5 (amended): provided the raw-mode acknowledgment `"OK"` arrives as
its own chunk (no payload bytes in the same chunk), the first scan for
`"OK"` returns `""` and leaves the remaining chunks unread, and for any
chunking of the remaining bytes `"1+1\r\n2\r\n\x04"` the subsequent scan
for `"\x04"` returns exactly `"1+1\r\n2\r\n"`. -/
theorem C5_loadTempPy_scan_scenario (rest : List (List Char))
    (h : rest.flatten = "1+1\r\n2\r\n\x04".data) :
    clearpicoport (some ("OK".data)) (("OK".data) :: rest) = ([], rest) ∧
    (clearpicoport (some ("\x04".data)) rest).1 = "1+1\r\n2\r\n".data := by
  constructor
  · rfl
  · have h8 : occursAt ("\x04".data) rest.flatten 8 := by rw [h]; decide
    have hmin : ∀ q < 8, ¬ occursAt ("\x04".data) rest.flatten q := by
      rw [h]; decide
    have hns : ∀ q, occursAt ("\x04".data) rest.flatten q →
        ∀ b ∈ boundaries rest, ¬ (q < b ∧ b < q + ("\x04".data).length) := by
      intro q _ b _ hc
      rw [show ("\x04".data).length = 1 from rfl] at hc
      omega
    rw [clearpicoport_eq_take (by decide) rest 8 h8 hmin hns, h]
    decide

/-- Witness for C5 at a concrete chunking: the remaining bytes arrive as
one chunk. -/
theorem C5_witness :
    clearpicoport (some ("OK".data)) (("OK".data) :: ["1+1\r\n2\r\n\x04".data]) =
      ([], ["1+1\r\n2\r\n\x04".data]) ∧
    (clearpicoport (some ("\x04".data)) ["1+1\r\n2\r\n\x04".data]).1 =
      "1+1\r\n2\r\n".data :=
  C5_loadTempPy_scan_scenario ["1+1\r\n2\r\n\x04".data] rfl

/-- C6: pushing `"a\nb\n"` via `writeFile` to `"temp.py"` produces
exactly two line-write instructions, the first writing `"a\n"`, with the
empty trailing line skipped, and the full trace ends with the CTRL+D
flush, the CTRL+B command and the passthrough-resume reader
acquisition. -/
theorem C6_writeFile_two_line_instructions :
    lineWriteInstrs (jsSplit '\n' ("a\nb\n".data)) =
      [("  f.write(\"a\\n\")\r".data), ("  f.write(\"b\\n\")\r".data)] ∧
    (writeFile ⟨true, true⟩ none ("temp.py".data) ("a\nb\n".data)).1 =
      [Ev.cancelReader, Ev.releaseReader, Ev.acquireReader, Ev.acquireWriter,
       Ev.write ("\x01".data),
       Ev.write (("with open(\"temp.py\", \"w\") as f:\r").data),
       Ev.write ("  f.write(\"a\\n\")\r".data),
       Ev.write ("  f.write(\"b\\n\")\r".data),
       Ev.write ("\x04".data),
       Ev.releaseWriter, Ev.acquireWriter, Ev.write ("\x02".data),
       Ev.releaseWriter, Ev.cancelReader, Ev.releaseReader,
       Ev.acquireReader] := by
  exact ⟨by decide, by decide⟩

/-- C10: the file-open instruction sent by `writeFile` is the literal
template `with open("<filename>", "w") as f:` followed by a carriage
return, with the filename interpolated verbatim and unescaped (a
double quote inside the filename is embedded as-is), while the per-line
content is JSON-quoted (a double quote inside a line is escaped). -/
theorem C10_filename_interpolated_verbatim :
    (∀ filename content : List Char,
      (writeFileWrites filename content)[1]? =
        some (("with open(\"".data) ++ filename ++ ("\", \"w\") as f:\r".data))) ∧
    (writeFileWrites ("a\"b".data) ("c\"d".data))[1]? =
      some (("with open(\"a\"b\", \"w\") as f:\r").data) ∧
    lineWriteInstrs (jsSplit '\n' ("c\"d".data)) =
      [("  f.write(\"c\\\"d\")".data)] := by
  exact ⟨fun filename content => by simp [writeFileWrites], by decide, by decide⟩

/-- C2: across every interleaving of the traces of the Pico operations
(connect's passthrough start, the transactions, disconnect), at most one
read lease is ever active, and each operation, run from a state holding
the leases its session state declares, never requests a reader while a
previous scan still holds one. -/
theorem C2_read_lease_invariant :
    (∀ (ops : List (List Ev)) (tr : List Ev),
      (∀ t ∈ ops, isPicoOpTrace t) → Interleaving ops tr →
      ∀ p : List Ev, p <+: tr → readerCount 0 p ≤ 1) ∧
    (∀ (st : St) (failAt : Option Nat) (fn ct : List Char),
      noAcq (initCount st) (writeFile st failAt fn ct).1 = true) ∧
    (∀ (st : St) (failAt : Option Nat) (ct : List Char),
      noAcq (initCount st) (runCode st failAt ct).1 = true) ∧
    (∀ (st : St) (failAt : Option Nat) (c : List Char),
      noAcq (initCount st) (sendCommand st failAt c).1 = true) ∧
    (∀ (st : St) (failAt : Option Nat),
      noAcq (initCount st) (loadTempPy st failAt).1 = true) ∧
    (∀ b, noAcq 0 (readpicoport b) = true) ∧
    (∀ b, noAcq (if b then 1 else 0) (disconnectFromPort b) = true) := by
  refine ⟨?_, noAcq_writeFile, noAcq_runCode, noAcq_sendCommand,
    noAcq_loadTempPy, ?_, ?_⟩
  · intro ops tr hops hint p hp
    exact readerCount_le_one p 0 (by omega)
  · intro b
    cases b <;> decide
  · intro b
    cases b <;> decide

/-- Witness for C2 at a concrete interleaving (a single passthrough
start) and a concrete operation run. -/
theorem C2_witness :
    readerCount 0 [Ev.acquireReader] ≤ 1 ∧
    noAcq (initCount ⟨true, true⟩)
      ((writeFile ⟨true, true⟩ none ("temp.py".data) ("a".data)).1) = true :=
  ⟨C2_read_lease_invariant.1 [readpicoport true] (readpicoport true)
      (by
        intro t ht
        rw [List.mem_singleton] at ht
        exact Or.inr (Or.inr (Or.inr (Or.inr (Or.inl ⟨true, ht⟩)))))
      (Interleaving.single _) [Ev.acquireReader] (by decide),
    C2_read_lease_invariant.2.1 ⟨true, true⟩ none ("temp.py".data) ("a".data)⟩

/-- C3 (counterexample): `runCode`, started while passthrough is active,
writes its control sequence without ever cancelling the passthrough
reader — no cancel precedes its first write. -/
theorem C3_counterexample :
    cancelBeforeWrite ((runCode ⟨true, true⟩ none ("print(1)".data)).1) =
      false := by
  decide

/-- C3 (amended): for `writeFile` and `loadTempPy` started while
passthrough is active, the passthrough reader is cancelled before the
first write of the control sequence; `runCode` performs no such
cancel. -/
theorem C3_cancel_precedes_write :
    (∀ (st : St) (failAt : Option Nat) (fn ct : List Char),
      st.readerActive = true →
      cancelBeforeWrite (writeFile st failAt fn ct).1 = true) ∧
    (∀ (st : St) (failAt : Option Nat), st.readerActive = true →
      cancelBeforeWrite (loadTempPy st failAt).1 = true) := by
  constructor
  · intro st failAt fn ct hra
    obtain ⟨co, ra⟩ := st
    simp only at hra
    subst hra
    cases co
    · simp [writeFile, cancelBeforeWrite]
    · cases hT : (writeSeq failAt 0 (writeFileWrites fn ct)).2 <;>
        simp [writeFile, hT, cancelBeforeWrite]
  · intro st failAt hra
    obtain ⟨co, ra⟩ := st
    simp only at hra
    subst hra
    cases co
    · simp [loadTempPy, cancelBeforeWrite]
    · cases hT : (writeSeq failAt 0 loadTempPyWrites).2 <;>
        simp [loadTempPy, hT, cancelBeforeWrite]

/-- Witness for C3 at concrete states. -/
theorem C3_witness :
    cancelBeforeWrite
      ((writeFile ⟨true, true⟩ none ("temp.py".data) ("a".data)).1) = true ∧
    cancelBeforeWrite ((loadTempPy ⟨true, true⟩ none).1) = true :=
  ⟨C3_cancel_precedes_write.1 ⟨true, true⟩ none ("temp.py".data) ("a".data) rfl,
   C3_cancel_precedes_write.2 ⟨true, true⟩ none rfl⟩

/-- C4 (counterexample): when the first write of a `writeFile`
transaction throws while the connection is still open, the operation
aborts without resuming passthrough — the trace does not end with a
reader acquisition. -/
theorem C4_counterexample :
    (writeFile ⟨true, true⟩ (some 0) ("temp.py".data) ("a".data)).2 = true ∧
    St.connOpen ⟨true, true⟩ = true ∧
    (writeFile ⟨true, true⟩ (some 0) ("temp.py".data) ("a".data)).1.getLast? ≠
      some Ev.acquireReader := by
  exact ⟨by decide, rfl, by decide⟩

/-- C4 (amended): on every exit of `writeFile` and `loadTempPy` where no
write throws, passthrough is resumed (a fresh reader acquisition is the
final step) if and only if the Connection is still open; when a write
throws, the operation aborts without the resume step. -/
theorem C4_resume_iff_open :
    (∀ (st : St) (failAt : Option Nat) (fn ct : List Char),
      (writeFile st failAt fn ct).2 = false →
      ((writeFile st failAt fn ct).1.getLast? = some Ev.acquireReader ↔
        st.connOpen = true)) ∧
    (∀ (st : St) (failAt : Option Nat),
      (loadTempPy st failAt).2 = false →
      ((loadTempPy st failAt).1.getLast? = some Ev.acquireReader ↔
        st.connOpen = true)) := by
  constructor
  · intro st failAt fn ct hok
    obtain ⟨co, ra⟩ := st
    cases co
    · cases ra <;> simp [writeFile]
    · cases hT : (writeSeq failAt 0 (writeFileWrites fn ct)).2
      · simp only [writeFile, hT, if_false, if_true, Bool.false_eq_true]
        rw [List.getLast?_concat]
        simp
      · exact absurd hok (by simp [writeFile, hT])
  · intro st failAt hok
    obtain ⟨co, ra⟩ := st
    cases co
    · cases ra <;> simp [loadTempPy]
    · cases hT : (writeSeq failAt 0 loadTempPyWrites).2
      · simp only [loadTempPy, hT, if_false, if_true, Bool.false_eq_true]
        rw [List.getLast?_concat]
        simp
      · exact absurd hok (by simp [loadTempPy, hT])

/-- Witness for C4 at concrete states, one side with the connection
open, one with it closed. -/
theorem C4_witness :
    ((writeFile ⟨true, false⟩ none ("temp.py".data) ("a".data)).1.getLast? =
      some Ev.acquireReader ↔ St.connOpen ⟨true, false⟩ = true) ∧
    ((loadTempPy ⟨false, true⟩ none).1.getLast? = some Ev.acquireReader ↔
      St.connOpen ⟨false, true⟩ = true) :=
  ⟨C4_resume_iff_open.1 ⟨true, false⟩ none ("temp.py".data) ("a".data)
      (by decide),
   C4_resume_iff_open.2 ⟨false, true⟩ none (by decide)⟩

/-- C7 (counterexample): when the single write of `sendCommand` throws,
the writer lock is not released before the operation exits — the
acquired writer stays held. -/
theorem C7_counterexample :
    sendCommand ⟨true, false⟩ (some 0) ("\x03".data) =
      ([Ev.acquireWriter], true) ∧
    writerCount 0 [Ev.acquireWriter] ≠ 0 := by
  exact ⟨by decide, by decide⟩

/-- C7 (amended): on every exit where no write throws, `sendCommand`,
`runCode` and `writeFile` release every writer lock they acquired before
returning; when a write throws, the lock is leaked (no try/finally
around `releaseLock`). -/
theorem C7_writer_released_on_success :
    (∀ (st : St) (failAt : Option Nat) (c : List Char),
      (sendCommand st failAt c).2 = false →
      writerCount 0 (sendCommand st failAt c).1 = 0) ∧
    (∀ (st : St) (failAt : Option Nat) (ct : List Char),
      (runCode st failAt ct).2 = false →
      writerCount 0 (runCode st failAt ct).1 = 0) ∧
    (∀ (st : St) (failAt : Option Nat) (fn ct : List Char),
      (writeFile st failAt fn ct).2 = false →
      writerCount 0 (writeFile st failAt fn ct).1 = 0) := by
  refine ⟨?_, ?_, ?_⟩
  · intro st failAt c hok
    obtain ⟨co, ra⟩ := st
    have hw := writeSeq_writes failAt 0 [c]
    cases co
    · simp [sendCommand, writerCount]
    · cases hT : (writeSeq failAt 0 [c]).2
      · simp [sendCommand, hT, writerCount, List.append_assoc,
          writerCount_append_writes hw]
      · exact absurd hok (by simp [sendCommand, hT])
  · intro st failAt ct hok
    obtain ⟨co, ra⟩ := st
    have hw := writeSeq_writes failAt 0
      [("\x01".data), ct, ("\x04".data), ("\x02".data)]
    cases co
    · simp [runCode, writerCount]
    · cases hT : (writeSeq failAt 0
          [("\x01".data), ct, ("\x04".data), ("\x02".data)]).2
      · simp [runCode, hT, writerCount, List.append_assoc,
          writerCount_append_writes hw]
      · exact absurd hok (by simp [runCode, hT])
  · intro st failAt fn ct hok
    obtain ⟨co, ra⟩ := st
    have hw := writeSeq_writes failAt 0 (writeFileWrites fn ct)
    cases co
    · cases ra <;> simp [writeFile, writerCount]
    · cases hT : (writeSeq failAt 0 (writeFileWrites fn ct)).2
      · cases ra <;>
          simp [writeFile, hT, writerCount, List.append_assoc,
            writerCount_append_writes hw]
      · exact absurd hok (by simp [writeFile, hT])

/-- Witness for C7 at concrete inputs. -/
theorem C7_witness :
    writerCount 0 ((sendCommand ⟨true, false⟩ none ("\x03".data)).1) = 0 ∧
    writerCount 0
      ((writeFile ⟨true, true⟩ none ("temp.py".data) ("a".data)).1) = 0 :=
  ⟨C7_writer_released_on_success.1 ⟨true, false⟩ none ("\x03".data) (by decide),
   C7_writer_released_on_success.2.2 ⟨true, true⟩ none ("temp.py".data)
     ("a".data) (by decide)⟩

/-- C8 (counterexample): `runCode` holds one acquired writer across four
write calls before releasing it, so the write lease is not limited to a
single write. -/
theorem C8_counterexample :
    writesInFirstHold ((runCode ⟨true, true⟩ none ("x".data)).1) = 4 ∧
    ¬ writesInFirstHold ((runCode ⟨true, true⟩ none ("x".data)).1) ≤ 1 := by
  exact ⟨by decide, by decide⟩

/-- C8 (amended): only `sendCommand` holds the acquired writer for at
most a single write; `runCode`, `writeFile` and `loadTempPy` each
acquire one writer and hold it across their whole multi-write phase —
four writes for `runCode`, three plus one per line instruction for
`writeFile`, and five for `loadTempPy`. -/
theorem C8_writer_hold_durations :
    (∀ (st : St) (failAt : Option Nat) (c : List Char),
      writesInFirstHold (sendCommand st failAt c).1 ≤ 1) ∧
    (∀ (st : St) (ct : List Char), st.connOpen = true →
      writesInFirstHold (runCode st none ct).1 = 4) ∧
    (∀ (st : St) (fn ct : List Char), st.connOpen = true →
      writesInFirstHold (writeFile st none fn ct).1 =
        3 + (lineWriteInstrs (jsSplit '\n' ct)).length) ∧
    (∀ st : St, st.connOpen = true →
      writesInFirstHold (loadTempPy st none).1 = 5) := by
  refine ⟨?_, ?_, ?_, ?_⟩
  · intro st failAt c
    obtain ⟨co, ra⟩ := st
    cases co
    · simp [sendCommand, writesInFirstHold]
    · by_cases h0 : failAt = some 0
      · simp [sendCommand, writeSeq, h0, writesInFirstHold,
          countWritesUntilRelease]
      · simp [sendCommand, writeSeq, h0, writesInFirstHold,
          countWritesUntilRelease]
  · intro st ct hco
    obtain ⟨co, ra⟩ := st
    simp only at hco
    subst hco
    have hmap := writeSeq_none 0
      [("\x01".data), ct, ("\x04".data), ("\x02".data)]
    simp only [runCode, hmap, if_true]
    simp only [writesInFirstHold]
    exact countWrites_map [("\x01".data), ct, ("\x04".data), ("\x02".data)] []
  · intro st fn ct hco
    obtain ⟨co, ra⟩ := st
    simp only at hco
    subst hco
    have hmap := writeSeq_none 0 (writeFileWrites fn ct)
    have hlen : (writeFileWrites fn ct).length =
        3 + (lineWriteInstrs (jsSplit '\n' ct)).length := by
      simp only [writeFileWrites, List.length_cons, List.length_append,
        List.length_singleton, List.length_nil]
      omega
    cases ra <;>
      simp [writeFile, hmap, writesInFirstHold, List.append_assoc,
        countWrites_map, hlen]
  · intro st hco
    obtain ⟨co, ra⟩ := st
    simp only at hco
    subst hco
    have hmap := writeSeq_none 0 loadTempPyWrites
    have hlen5 : loadTempPyWrites.length = 5 := rfl
    cases ra <;>
      simp [loadTempPy, hmap, writesInFirstHold, List.append_assoc,
        countWrites_map, hlen5]

/-- Witness for C8 at concrete inputs. -/
theorem C8_witness :
    writesInFirstHold ((sendCommand ⟨true, false⟩ none ("\x03".data)).1) ≤ 1 ∧
    writesInFirstHold ((runCode ⟨true, false⟩ none ("x".data)).1) = 4 ∧
    writesInFirstHold
      ((writeFile ⟨true, false⟩ none ("temp.py".data) ("a\nb\n".data)).1) =
      3 + (lineWriteInstrs (jsSplit '\n' ("a\nb\n".data))).length ∧
    writesInFirstHold ((loadTempPy ⟨true, false⟩ none).1) = 5 :=
  ⟨C8_writer_hold_durations.1 ⟨true, false⟩ none ("\x03".data),
   C8_writer_hold_durations.2.1 ⟨true, false⟩ ("x".data) rfl,
   C8_writer_hold_durations.2.2.1 ⟨true, false⟩ ("temp.py".data)
     ("a\nb\n".data) rfl,
   C8_writer_hold_durations.2.2.2 ⟨true, false⟩ rfl⟩

/-- C9 (counterexample): invoked with no open Connection, `sendCommand`,
`runCode` and `writeFile` perform no events and return without any
error — the attempt is silently skipped, not surfaced as a precondition
failure. -/
theorem C9_counterexample :
    sendCommand ⟨false, false⟩ none ("\x03".data) = ([], false) ∧
    runCode ⟨false, false⟩ none ("x".data) = ([], false) ∧
    writeFile ⟨false, false⟩ none ("temp.py".data) ("a".data) = ([], false) := by
  exact ⟨by decide, by decide, by decide⟩

/-- C9 (amended): with no open Connection the caller-facing write
operations are silent no-ops (the `prepareWritablePort()` guard skips
their body and nothing is thrown; `writeFile` still runs its
reader-cancel step); only a direct `Pico.write` with no prepared writer
throws `'Writer is not available'`. -/
theorem C9_silent_skip_when_closed :
    (∀ (st : St) (failAt : Option Nat) (c : List Char), st.connOpen = false →
      sendCommand st failAt c = ([], false)) ∧
    (∀ (st : St) (failAt : Option Nat) (ct : List Char), st.connOpen = false →
      runCode st failAt ct = ([], false)) ∧
    (∀ (st : St) (failAt : Option Nat) (fn ct : List Char),
      st.connOpen = false →
      writeFile st failAt fn ct =
        ((if st.readerActive then [Ev.cancelReader, Ev.releaseReader] else []),
          false)) ∧
    (∀ s, write false s = Except.error ("Writer is not available".data)) := by
  refine ⟨?_, ?_, ?_, fun s => rfl⟩
  · intro st failAt c hco
    obtain ⟨co, ra⟩ := st
    simp only at hco
    subst hco
    simp [sendCommand]
  · intro st failAt ct hco
    obtain ⟨co, ra⟩ := st
    simp only at hco
    subst hco
    simp [runCode]
  · intro st failAt fn ct hco
    obtain ⟨co, ra⟩ := st
    simp only at hco
    subst hco
    simp [writeFile]

/-- Witness for C9 at concrete inputs. -/
theorem C9_witness :
    sendCommand ⟨false, true⟩ none ("\x03".data) = ([], false) ∧
    writeFile ⟨false, true⟩ none ("temp.py".data) ("a".data) =
      ((if St.readerActive ⟨false, true⟩ then
          [Ev.cancelReader, Ev.releaseReader] else []), false) :=
  ⟨C9_silent_skip_when_closed.1 ⟨false, true⟩ none ("\x03".data) rfl,
   C9_silent_skip_when_closed.2.2.1 ⟨false, true⟩ none ("temp.py".data)
     ("a".data) rfl⟩

end Pico
